import Mathlib

/-!
Verification of the KurobaEx post parser core (the markup parser under
`new_post_parser_lib/html_parser/parser.rs` and the two span-producing rule
handlers under `new_post_parser_lib/rules/`).

Modelling conventions:
* one text unit of the source (a UTF-16 code unit read off the input vector)
  is modelled as a Lean `Char`; all characters compared against by the source
  are ASCII, so the comparisons coincide;
* a Rust `String` is modelled as `List Char`; its `len()` (a UTF-8 byte
  count) is modelled by summing the UTF-8 size of each character;
* a Rust panic, an out-of-bounds index and the one fuel guard used to realise
  the source's recursion are distinguished constructors of `ParseErr`;
* the source's cursor (`local_offset`) only ever moves forward, so the suffix
  of the input that is not yet consumed stands for the cursor.
-/

mutual

/-- Node tree produced by the markup parser (`html_parser/node.rs`): a leaf
text run or an element with children. -/
inductive Node where
  | text : List Char → Node
  | element : Element → Node

/-- Element data: tag name, insertion-ordered attribute mapping, children and
the void-element flag (`html_parser/element.rs`). -/
inductive Element where
  | mk : List Char → List (List Char × List Char) → List Node → Bool → Element

end

/-- Accessor for the tag name of an element. -/
def Element.tag_name : Element → List Char
  | .mk n _ _ _ => n

/-- Accessor for the attribute mapping of an element. -/
def Element.attributes : Element → List (List Char × List Char)
  | .mk _ a _ _ => a

/-- Accessor for the children of an element. -/
def Element.children : Element → List Node
  | .mk _ _ c _ => c

/-- Accessor for the void-element flag of an element. -/
def Element.is_void_element : Element → Bool
  | .mk _ _ _ v => v

/-- The ways a parse can abort.  The first four model the source's panics and
the unchecked vector index; `outOfFuel` is an artifact of realising the
source's recursion on a fuel parameter and is never reached when the fuel
exceeds the input length. -/
inductive ParseErr where
  | oobNextChar
  | noTagEnd
  | emptyTagParts
  | noTagName
  | indexPanic
  | outOfFuel
deriving DecidableEq

/-- The fixed void-element table (`VOID_ELEMENTS` in
`new_post_parser_lib/html_parser/parser.rs`, lines 7-25). -/
def VOID_ELEMENTS : List (List Char) :=
  ["area", "base", "br", "wbr", "col", "hr", "img", "input", "link", "meta",
    "param"].map String.data

/-- Loop body of `HtmlParser::split_into_parts_by_separator` (lines 190-224):
`inString` is `is_inside_string`, `cur` is `current_tag_part`, the quote
toggle fires before the separator test, a separator hit pushes the current
part even when it is empty, and a trailing part is pushed only when
non-empty. -/
def splitPartsGo (sep : Char) : Bool → List Char → List Char → List (List Char)
  | _, cur, [] => if cur.length > 0 then [cur] else []
  | inString, cur, ch :: rest =>
    let inString2 := if ch = '"' then !inString else inString
    if ch = sep ∧ inString2 = false then
      cur :: splitPartsGo sep inString2 [] rest
    else
      splitPartsGo sep inString2 (cur ++ [ch]) rest

/-- `HtmlParser::split_into_parts_by_separator`. -/
def split_into_parts_by_separator (tag_raw : List Char) (sep : Char) :
    List (List Char) :=
  splitPartsGo sep false [] tag_raw

/-- Quote stripping applied to an attribute value inside
`HtmlParser::create_tag` (lines 160-166): a leading double quote is removed
first, then a trailing one is removed from the result. -/
def stripQuotes (v : List Char) : List Char :=
  let v1 := if v.head? = some '"' then v.drop 1 else v
  if v1.getLast? = some '"' then v1.dropLast else v1

/-- Insertion into the `LinkedHashMap` of attributes: an existing key keeps
its position and gets the new value, a new key is appended. -/
def lhmInsert : List (List Char × List Char) → List Char → List Char →
    List (List Char × List Char)
  | [], k, v => [(k, v)]
  | (k0, v0) :: rest, k, v =>
    if k0 = k then (k, v) :: rest else (k0, v0) :: lhmInsert rest k v

/-- Per-part loop of `HtmlParser::create_tag` (lines 150-173): a part without
`=` becomes the tag name (a later such part overwrites an earlier one), any
other part is split at each unquoted `=`, pieces 0 and 1 are taken as name
and value (any extra piece is dropped, a missing piece 1 is the source's
out-of-bounds index panic), the value loses surrounding double quotes, and a
pair with an empty name or value is skipped. -/
def createTagGo : List (List Char) → Option (List Char) →
    List (List Char × List Char) →
    Except ParseErr (Option (List Char) × List (List Char × List Char))
  | [], nameM, attrs => .ok (nameM, attrs)
  | p :: rest, nameM, attrs =>
    if p.contains '=' = false then
      createTagGo rest (some p) attrs
    else
      let pieces := split_into_parts_by_separator p '='
      match pieces.head?, pieces.tail.head? with
      | some n, some v0 =>
        let v := stripQuotes v0
        if n.isEmpty ∨ v.isEmpty then
          createTagGo rest nameM attrs
        else
          createTagGo rest nameM (lhmInsert attrs n v)
      | _, _ => .error .indexPanic

/-- `HtmlParser::create_tag` (lines 141-188): split the raw tag text on
unquoted spaces, panic when no part results, process the parts, panic when no
name-slot part occurred, and look the name up in the void-element table.
Children are always empty at this stage. -/
def create_tag (tag_raw : List Char) : Except ParseErr Element :=
  let tag_parts := split_into_parts_by_separator tag_raw ' '
  if tag_parts.isEmpty then .error .emptyTagParts
  else
    match createTagGo tag_parts none [] with
    | .error e => .error e
    | .ok (nameM, attrs) =>
      match nameM with
      | none => .error .noTagName
      | some nm => .ok (Element.mk nm attrs [] (VOID_ELEMENTS.contains nm))

/-- `HtmlParser::skip_tag_end` (lines 126-139): scan forward for `>` and
resume just past it; reaching the end of the input without one is the
source's `Failed to find tag end` panic, modelled by `none`. -/
def skip_tag_end : List Char → Option (List Char)
  | [] => none
  | c :: rest => if c = '>' then some rest else skip_tag_end rest

/-- Buffer flush of `parse_internal` (lines 51-56 and 79-84): a non-empty
pending plain-text buffer becomes one `Text` node. -/
def flush (outNodes : List Node) (buf : List Char) : List Node :=
  if buf.length > 0 then outNodes ++ [Node.text buf] else outNodes

/-- `HtmlParser::parse_internal` (lines 42-87) with `HtmlParser::parse_tag`
(lines 89-124) inlined at its single call site.  On `<` the buffer is
flushed, then the next unit is read with no bounds check (line 60: the
`oobNextChar` abort); `/` hands control back to the caller after
`skip_tag_end`; otherwise the tag text up to `>` is cut out, the `>` is
skipped (also when absent, which lands the cursor beyond the end, modelled by
the suffix already being empty), the tag is created, and a non-void element
recursively receives children.  The fuel only realises the recursion. -/
def parseInternalGo : Nat → List Node → List Char → List Char →
    Except ParseErr (List Node × List Char)
  | 0, _, _, _ => .error .outOfFuel
  | _ + 1, outNodes, buf, [] => .ok (flush outNodes buf, [])
  | fuel + 1, outNodes, buf, c :: rest =>
    if c = '<' then
      match rest with
      | [] => .error .oobNextChar
      | next :: _ =>
        if next = '/' then
          match skip_tag_end rest with
          | none => .error .noTagEnd
          | some rem => .ok (flush outNodes buf, rem)
        else
          let tagRaw := rest.takeWhile (fun ch => ch != '>')
          let afterTag := (rest.dropWhile (fun ch => ch != '>')).drop 1
          match create_tag tagRaw with
          | .error e => .error e
          | .ok el =>
            if el.is_void_element then
              parseInternalGo fuel (flush outNodes buf ++ [Node.element el])
                [] afterTag
            else
              match parseInternalGo fuel [] [] afterTag with
              | .error e => .error e
              | .ok (children, rem) =>
                parseInternalGo fuel
                  (flush outNodes buf ++
                    [Node.element
                      (Element.mk el.tag_name el.attributes children false)])
                  [] rem
    else
      parseInternalGo fuel outNodes (buf ++ [c]) rest

/-- `HtmlParser::parse` (lines 32-39): run `parse_internal` from the start
and drop the final cursor.  The fuel `length + 2` exceeds every cursor
position the run can visit. -/
def parse (html : List Char) : Except ParseErr (List Node) :=
  match parseInternalGo (html.length + 2) [] [] html with
  | .error e => .error e
  | .ok (nodes, _) => .ok nodes

/-- UTF-8 size of one character, as stored by a Rust `String`; `String::len`
counts these bytes. -/
def utf8Size (c : Char) : Nat :=
  if c.val < 0x80 then 1
  else if c.val < 0x800 then 2
  else if c.val < 0x10000 then 3
  else 4

/-- Byte length of a Rust `String` (`String::len`). -/
def rustStringLen (s : List Char) : Nat := (s.map utf8Size).sum

/-- UTF-16 size of one character: the text-unit granularity the
`new_post_parser_lib` parser reads its input in (`html.encode_utf16()`). -/
def utf16Size (c : Char) : Nat := if c.val < 0x10000 then 1 else 2

/-- Text-unit length of a string: the count stored in
`TextPart::characters_count` per the spec. -/
def textUnitCount (s : List Char) : Nat := (s.map utf16Size).sum

/-- Modelled from the spec: `TextPart` (its definition is not under `src/`;
`rules/span.rs` and `rules/spoiler.rs` only read `text` and
`characters_count`).  One emitted fragment of flattened text together with
its text-unit length. -/
structure TextPart where
  text : List Char
  characters_count : Nat
deriving DecidableEq

/-- `PostLink` kinds used by the dead-link handler (`rules/span.rs`,
lines 100-104). -/
inductive PostLink where
  | Quote : Nat → PostLink
  | Dead : Nat → PostLink
deriving DecidableEq

/-- Spannable payload kinds; `Link` carries the resolved `PostLink` appended
by the dead-link path. -/
inductive SpannableData where
  | GreenText
  | Spoiler
  | Link : PostLink → SpannableData
deriving DecidableEq

/-- A positional style annotation over the flattened text. -/
structure Spannable where
  start : Nat
  len : Nat
  spannable_data : SpannableData
deriving DecidableEq

/-- Modelled from the spec: `Spannable::is_valid` (its definition is not
under `src/`; both handlers gate their push on it).  The validity invariant
is `len > 0`. -/
def Spannable.is_valid (s : Spannable) : Bool := decide (0 < s.len)

/-- Sum of the `characters_count` fields of a run of text parts, as both
`rules/spoiler.rs` (lines 46-52) and `rules/span.rs` (lines 106-108)
compute it with `sum_by`. -/
def charactersSum (parts : List TextPart) : Nat :=
  (parts.map TextPart.characters_count).sum

/-- `RuleHandlerPostHandleMeta::get_out_text_parts_diff_len`
(`rules/rule_handler.rs`, lines 41-49): over `Vec<String>`, summing
`string.len()`, the UTF-8 byte count of each string; an index at or below
zero short-circuits to zero. -/
def get_out_text_parts_diff_len (prev : Nat) (out_text_parts : List (List Char)) : Nat :=
  if prev ≤ 0 then 0
  else ((out_text_parts.take prev).map rustStringLen).sum

/-- `RuleHandlerPostHandleMeta::get_out_text_parts_new_len`
(`rules/rule_handler.rs`, lines 51-55): the `string.len()` byte sum of the
parts from the snapshot index on. -/
def get_out_text_parts_new_len (prev : Nat) (out_text_parts : List (List Char)) : Nat :=
  ((out_text_parts.drop prev).map rustStringLen).sum

/-- Boundary of the external Post Link Resolution collaborator: the one
query `is_internal_thread_post` consulted by the dead-link handler. -/
structure PostParserContext where
  is_internal_thread_post : Nat → Bool

/-- Space-splitting of a class attribute value, used by the modelled
`Element::has_class`. -/
def splitBySpaceGo : List Char → List Char → List (List Char)
  | cur, [] => [cur]
  | cur, c :: rest =>
    if c = ' ' then cur :: splitBySpaceGo [] rest
    else splitBySpaceGo (cur ++ [c]) rest

/-- Modelled from the spec: `Element::has_class` (its definition is not
under `src/`).  The `class` attribute value is split on spaces and the
candidate class is matched exactly, case-sensitively. -/
def Element.has_class (e : Element) (cls : List Char) : Bool :=
  match List.lookup "class".data e.attributes with
  | none => false
  | some v => (splitBySpaceGo [] v).contains cls

/-- `SpanHandler::handle_quote_class` (`rules/span.rs`, lines 127-155), the
greentext emitter: `start` and `len` come from the two
`RuleHandlerPostHandleMeta` functions.  Those are declared over
`Vec<String>` in `rules/rule_handler.rs` while this caller passes
`Vec<TextPart>`; the embedding applies them to the text of each part, which
is the only reading under which the call means anything. -/
def handle_quote_class (prev_out_text_parts_index : Nat)
    (out_text_parts : List TextPart) (out_spannables : List Spannable) :
    List Spannable :=
  let start := get_out_text_parts_diff_len prev_out_text_parts_index
    (out_text_parts.map TextPart.text)
  let len := get_out_text_parts_new_len prev_out_text_parts_index
    (out_text_parts.map TextPart.text)
  let spannable : Spannable := ⟨start, len, .GreenText⟩
  if spannable.is_valid then out_spannables ++ [spannable] else out_spannables

/-- `SpanHandler::post_handle` (`rules/span.rs`, lines 29-54): an unchanged
accumulator length since the snapshot means an empty body and nothing is
emitted; a `quote`-classed element gets the greentext treatment; the
trailing `deadlink` check only returns (that class was handled in
`pre_handle`). -/
def SpanHandler.post_handle (element : Element)
    (prev_out_text_parts_index : Nat) (out_text_parts : List TextPart)
    (out_spannables : List Spannable) : List Spannable :=
  if prev_out_text_parts_index = out_text_parts.length then out_spannables
  else if element.has_class "quote".data then
    handle_quote_class prev_out_text_parts_index out_text_parts out_spannables
  else out_spannables

/-- `SpoilerHandler::post_handle` (`rules/spoiler.rs`, lines 30-63): skip on
an empty body, otherwise `start` is the `characters_count` sum before the
snapshot and `len` the sum from the snapshot on, and the spannable is pushed
only when valid. -/
def SpoilerHandler.post_handle (prev_out_text_parts_index : Nat)
    (out_text_parts : List TextPart) (out_spannables : List Spannable) :
    List Spannable :=
  if prev_out_text_parts_index = out_text_parts.length then out_spannables
  else
    let start := charactersSum (out_text_parts.take prev_out_text_parts_index)
    let len := charactersSum (out_text_parts.drop prev_out_text_parts_index)
    let spannable : Spannable := ⟨start, len, .Spoiler⟩
    if spannable.is_valid then out_spannables ++ [spannable] else out_spannables

/-- Rust `str::parse::<u64>` on the digits after the `>>` marker: an
optional leading `+`, then one or more ASCII digits, value below `2 ^ 64`;
anything else is `Err`. -/
def parseU64 (s : List Char) : Option Nat :=
  let digits := match s with
    | '+' :: rest => rest
    | _ => s
  if digits.isEmpty then none
  else if digits.all Char.isDigit then
    let v := digits.foldl (fun acc c => acc * 10 + (c.toNat - 48)) 0
    if v < 2 ^ 64 then some v else none
  else none

/-- Modelled from the spec: `handle_single_post_quote` (`rules/anchor.rs`,
not under `src/`).  It appends the decoded original text, surrounding
markers included, as a `TextPart`, and appends a spannable carrying the
resolved `PostLink` over exactly that appended range, with the pre-existing
total text-unit length as the start offset; a spannable failing the validity
invariant is discarded. -/
def handle_single_post_quote (out_text_parts : List TextPart)
    (out_spannables : List Spannable) (post_link : PostLink)
    (text : List Char) (total_text_length : Nat) :
    List TextPart × List Spannable :=
  let tp : TextPart := ⟨text, textUnitCount text⟩
  let spannable : Spannable :=
    ⟨total_text_length, tp.characters_count, .Link post_link⟩
  (out_text_parts ++ [tp],
    if spannable.is_valid then out_spannables ++ [spannable]
    else out_spannables)

/-- `SpanHandler::handle_deadlink_class` (`rules/span.rs`, lines 63-125).
The result is `none` for the source's panic, otherwise the returned flag of
`pre_handle` together with both accumulators.  Entity decoding is the
external collaborator, passed in as `decode`; the source binds the decoded
child text to `quote_text_child` and matches its `>>` head, here realised by
matching the decoded text directly and rebuilding `quote_text_child` as
`>>` followed by the matched tail.  Note the guard is
`children.len() > 1`, so an element with zero children falls through to
`children.first().unwrap()`, which panics. -/
def handle_deadlink_class (ctx : PostParserContext)
    (decode : List Char → List Char) (element : Element)
    (out_text_parts : List TextPart) (out_spannables : List Spannable) :
    Option (Bool × List TextPart × List Spannable) :=
  if element.children.length > 1 then
    some (true, out_text_parts, out_spannables)
  else
    match element.children.head? with
    | none => none
    | some child =>
      match child with
      | .element _ => some (true, out_text_parts, out_spannables)
      | .text link_text =>
        match decode link_text with
        | '>' :: '>' :: quote_text =>
          match parseU64 quote_text with
          | none => some (true, out_text_parts, out_spannables)
          | some quote_value =>
            let post_link :=
              if ctx.is_internal_thread_post quote_value then
                PostLink.Quote quote_value
              else PostLink.Dead quote_value
            let total_text_length := charactersSum out_text_parts
            let r := handle_single_post_quote out_text_parts out_spannables
              post_link ('>' :: '>' :: quote_text) total_text_length
            some (true, r.1, r.2)
        | _ => some (true, out_text_parts, out_spannables)

/-- `SpanHandler::pre_handle` (`rules/span.rs`, lines 13-27): a
`deadlink`-classed element is handled by `handle_deadlink_class`, anything
else is left to the normal recursion. -/
def SpanHandler.pre_handle (ctx : PostParserContext)
    (decode : List Char → List Char) (element : Element)
    (out_text_parts : List TextPart) (out_spannables : List Spannable) :
    Option (Bool × List TextPart × List Spannable) :=
  if element.has_class "deadlink".data then
    handle_deadlink_class ctx decode element out_text_parts out_spannables
  else some (false, out_text_parts, out_spannables)


/-! Claim C1 -/

/-- C1: the claim says both span-producing handlers compute `start` and `len`
from `characters_count` sums, never from raw byte counts.  The spoiler
handler does, but the greentext path of `SpanHandler::handle_quote_class`
goes through `RuleHandlerPostHandleMeta`, whose `rules/rule_handler.rs`
implementation sums `String::len()` — UTF-8 byte counts.  At a single text
part holding the one-text-unit character Ж (`characters_count = 1`, two
UTF-8 bytes) the greentext spannable gets `len = 2` while the
`characters_count` sum demanded by the claim is `1`; the spoiler handler at
the same input correctly emits `len = 1`. -/
theorem c1_greentext_uses_byte_len :
    handle_quote_class 0 [⟨['Ж'], 1⟩] [] = [⟨0, 2, .GreenText⟩] ∧
    charactersSum [⟨['Ж'], 1⟩] = 1 ∧
    SpoilerHandler.post_handle 0 [⟨['Ж'], 1⟩] [] = [⟨0, 1, .Spoiler⟩] :=
  ⟨by decide, by decide, by decide⟩

/-! Claim C2 -/

/-- C2: the claim says every malformed `deadlink` element shape — zero
children included — makes `pre_handle` return `true` without panicking or
appending.  The shapes with two children, an element child, a text child
without the `>>` marker and an unparsable post number all behave as claimed,
but a `deadlink` element with zero children passes the `children.len() > 1`
guard and panics on `children.first().unwrap()` (modelled by `none`). -/
theorem c2_deadlink_malformed_shapes :
    SpanHandler.pre_handle ⟨fun _ => false⟩ (fun s => s)
      (Element.mk "span".data [("class".data, "deadlink".data)] [] false)
      [] [] = none ∧
    SpanHandler.pre_handle ⟨fun _ => false⟩ (fun s => s)
      (Element.mk "span".data [("class".data, "deadlink".data)]
        [Node.text "x".data, Node.text "y".data] false) [] []
      = some (true, [], []) ∧
    SpanHandler.pre_handle ⟨fun _ => false⟩ (fun s => s)
      (Element.mk "span".data [("class".data, "deadlink".data)]
        [Node.element (Element.mk "b".data [] [] false)] false) [] []
      = some (true, [], []) ∧
    SpanHandler.pre_handle ⟨fun _ => false⟩ (fun s => s)
      (Element.mk "span".data [("class".data, "deadlink".data)]
        [Node.text "abc".data] false) [] [] = some (true, [], []) ∧
    SpanHandler.pre_handle ⟨fun _ => false⟩ (fun s => s)
      (Element.mk "span".data [("class".data, "deadlink".data)]
        [Node.text ">>12x".data] false) [] [] = some (true, [], []) :=
  ⟨rfl, rfl, rfl, rfl, rfl⟩

/-! Claim C3 -/

/-- C3, counterexample: the claim requires the malformed input `<div>` to
fail fatally, but the parser returns a one-element tree for it: no closing
sequence `</` ever occurs, so the fatal `skip_tag_end` scan never runs. -/
theorem c3_counterexample :
    parse "<div>".data =
      .ok [Node.element (Element.mk "div".data [] [] false)] := rfl

/-- C3, amended: the `skip_tag_end` scan aborts with the fatal panic exactly
when no `>` remains in the input after a closing-tag sequence `</`; the
input `<div>` contains no `</`, parses successfully to a single childless
`div` element, and an input that does leave a `</` unterminated, such as
`<div></div`, is the fatal case. -/
theorem c3_amended :
    (∀ l : List Char, skip_tag_end l = none ↔ '>' ∉ l) ∧
    parse "<div>".data =
      .ok [Node.element (Element.mk "div".data [] [] false)] ∧
    parse "<div></div".data = .error .noTagEnd := by
  refine ⟨?_, rfl, rfl⟩
  intro l
  induction l with
  | nil => simp [skip_tag_end]
  | cons c rest ih =>
    by_cases h : c = '>'
    · subst h
      simp [skip_tag_end]
    · simp [skip_tag_end, h, ih, Ne.symm h]

/-- Witness for C3: the theorem applied to the concrete input `<a`. -/
theorem c3_amended_witness :
    ('>' ∉ ['<', 'a']) ∧ skip_tag_end ['<', 'a'] = none :=
  ⟨by decide, (c3_amended.1 ['<', 'a']).mpr (by decide)⟩

/-! Claim C7 -/

/-- C7: when nothing was appended to the text-part accumulator since the
pre-element snapshot (the snapshot index equals the accumulator length),
both the greentext and the spoiler `post_handle` leave the spannable
accumulator unchanged — an empty-bodied element contributes no spannable. -/
theorem c7_empty_body_suppression (element : Element) (parts : List TextPart)
    (spans : List Spannable) :
    SpanHandler.post_handle element parts.length parts spans = spans ∧
    SpoilerHandler.post_handle parts.length parts spans = spans := by
  constructor <;> simp [SpanHandler.post_handle, SpoilerHandler.post_handle]

/-! Claim C10 -/

/-- C10, counterexample: the claim quantifies over every input whose last
text unit is `<`, but `a<b<` ends in `<` and parses without aborting: the
final `<` is swallowed by the tag-text scan of the earlier `<` and ends up
inside the tag name `b<`. -/
theorem c10_counterexample :
    parse "a<b<".data =
      .ok [Node.text "a".data,
           Node.element (Element.mk "b<".data [] [] false)] := rfl

/-- Scanning a run of plain text that ends exactly in a final `<` reaches
the unchecked `html[local_offset]` read one past the end. -/
theorem parseGo_plain_trailing_lt (t : List Char) :
    ∀ fuel nodes buf, '<' ∉ t → t.length + 1 ≤ fuel →
      parseInternalGo fuel nodes buf (t ++ ['<']) = .error .oobNextChar := by
  induction t with
  | nil =>
    intro fuel nodes buf _ hf
    match fuel, hf with
    | f + 1, _ => rfl
  | cons c t ih =>
    intro fuel nodes buf hmem hf
    match fuel, hf with
    | f + 1, hf =>
      have hc : ¬ c = '<' := fun h => hmem (h ▸ List.mem_cons_self c t)
      rw [List.cons_append]
      show (if c = '<' then _ else parseInternalGo f nodes (buf ++ [c]) (t ++ ['<'])) = _
      rw [if_neg hc]
      exact ih f nodes (buf ++ [c]) (fun h => hmem (List.mem_cons_of_mem _ h))
        (by simpa using Nat.le_of_succ_le_succ hf)

/-- C10, amended: for every input in which `<` occurs only as the final text
unit, `parse_internal` reads the unit one past that `<` without a bounds
check and the parse aborts out of bounds instead of returning a node
sequence; an input with an earlier `<` may instead absorb the final `<` into
a tag and succeed. -/
theorem c10_amended (s : List Char) (h : '<' ∉ s) :
    parse (s ++ ['<']) = .error .oobNextChar := by
  have hrun := parseGo_plain_trailing_lt s ((s ++ ['<']).length + 2) [] [] h
    (by simp)
  unfold parse
  rw [hrun]

/-- Witness for C10: the theorem applied to the concrete input `abc<`. -/
theorem c10_amended_witness :
    ('<' ∉ "abc".data) ∧ parse ("abc".data ++ ['<']) = .error .oobNextChar :=
  ⟨by decide, c10_amended "abc".data (by decide)⟩

/-! Claim C4 -/

/-- A push guarded by the validity check preserves positivity of every
spannable length in the accumulator. -/
theorem guarded_push_pos (sp : Spannable) (l : List Spannable)
    (hl : ∀ s ∈ l, 0 < s.len) :
    ∀ s ∈ (if sp.is_valid then l ++ [sp] else l), 0 < s.len := by
  intro s hs
  by_cases hv : sp.is_valid = true
  · rw [if_pos hv] at hs
    rcases List.mem_append.1 hs with h1 | h1
    · exact hl s h1
    · have hsp : s = sp := by simpa using h1
      subst hsp
      exact of_decide_eq_true hv
  · rw [if_neg hv] at hs
    exact hl s hs

/-- C4: none of the three spannable-producing paths under verification ever
appends a zero-length spannable: each appends only behind the validity check
`len > 0`, so an accumulator free of zero-length spannables stays free of
them through the greentext `post_handle`, the spoiler `post_handle` and the
dead-link handler. -/
theorem c4_validity_filter (element : Element) (ctx : PostParserContext)
    (decode : List Char → List Char) (prev : Nat) (parts : List TextPart)
    (spans : List Spannable) (h : ∀ s ∈ spans, 0 < s.len) :
    (∀ s ∈ SpanHandler.post_handle element prev parts spans, 0 < s.len) ∧
    (∀ s ∈ SpoilerHandler.post_handle prev parts spans, 0 < s.len) ∧
    (∀ b p2 s2,
      handle_deadlink_class ctx decode element parts spans = some (b, p2, s2) →
      ∀ s ∈ s2, 0 < s.len) := by
  refine ⟨?_, ?_, ?_⟩
  · unfold SpanHandler.post_handle
    split
    · exact h
    · split
      · exact guarded_push_pos _ _ h
      · exact h
  · unfold SpoilerHandler.post_handle
    split
    · exact h
    · exact guarded_push_pos _ _ h
  · intro b p2 s2 heq
    unfold handle_deadlink_class at heq
    split at heq
    · obtain ⟨_, _, rfl⟩ := Option.some.inj heq
      exact h
    · split at heq
      · exact absurd heq (by simp)
      · split at heq
        · obtain ⟨_, _, rfl⟩ := Option.some.inj heq
          exact h
        · split at heq
          · split at heq
            · obtain ⟨_, _, rfl⟩ := Option.some.inj heq
              exact h
            · obtain ⟨_, _, rfl⟩ := Option.some.inj heq
              exact guarded_push_pos _ _ h
          · obtain ⟨_, _, rfl⟩ := Option.some.inj heq
            exact h

/-- Witness for C4: the theorem applied to a concrete quote-classed element
with one two-unit text part and an empty spannable accumulator. -/
theorem c4_validity_filter_witness :
    (∀ s ∈ SpanHandler.post_handle
        (Element.mk "span".data [("class".data, "quote".data)] [] false)
        0 [⟨"ab".data, 2⟩] [], 0 < s.len) ∧
    (∀ s ∈ SpoilerHandler.post_handle 0 [⟨"ab".data, 2⟩] [], 0 < s.len) ∧
    (∀ b p2 s2,
      handle_deadlink_class ⟨fun _ => false⟩ (fun x => x)
        (Element.mk "span".data [("class".data, "quote".data)] [] false)
        [⟨"ab".data, 2⟩] [] = some (b, p2, s2) →
      ∀ s ∈ s2, 0 < s.len) :=
  c4_validity_filter _ _ _ _ _ _ (by simp)

/-! Claim C8 -/

/-- C8: for a well-formed quote link — one text child whose decoded form is
`>>` followed by digits parsing as a `u64` — the dead-link handler appends
the decoded label as a text part and appends a spannable whose link kind is
`Quote` when the resolution collaborator classifies the number as internal
and `Dead` otherwise, and whose start offset is the `characters_count` sum
of every text part emitted before the handler ran. -/
theorem c8_quote_resolution (ctx : PostParserContext)
    (decode : List Char → List Char) (nm : List Char)
    (attrs : List (List Char × List Char)) (isV : Bool) (t ds : List Char)
    (nval : Nat) (parts : List TextPart) (spans : List Spannable)
    (hdec : decode t = '>' :: '>' :: ds) (hparse : parseU64 ds = some nval) :
    handle_deadlink_class ctx decode (Element.mk nm attrs [Node.text t] isV)
        parts spans
      = some (true,
          parts ++ [⟨'>' :: '>' :: ds, textUnitCount ('>' :: '>' :: ds)⟩],
          spans ++ [⟨charactersSum parts, textUnitCount ('>' :: '>' :: ds),
            .Link (if ctx.is_internal_thread_post nval then .Quote nval
                   else .Dead nval)⟩]) := by
  unfold handle_deadlink_class
  simp only [Element.children, List.length_cons, List.length_nil,
    List.head?_cons, hdec, hparse]
  rw [if_neg (by omega)]
  have hpos : (⟨charactersSum parts, textUnitCount ('>' :: '>' :: ds),
      SpannableData.Link (if ctx.is_internal_thread_post nval then .Quote nval
        else .Dead nval)⟩ : Spannable).is_valid = true := by
    apply decide_eq_true
    show 0 < textUnitCount ('>' :: '>' :: ds)
    have h16 : utf16Size '>' = 1 := by decide
    simp [textUnitCount, h16]
  simp [handle_single_post_quote, hpos]

/-- Witness for C8: the theorem applied to the spec's own scenario — label
`>>555`, collaborator reporting 555 as not internal, three text units
already emitted — yielding a `Dead` spannable starting at offset 3. -/
theorem c8_quote_resolution_witness :
    handle_deadlink_class ⟨fun _ => false⟩ (fun s => s)
        (Element.mk "span".data [("class".data, "deadlink".data)]
          [Node.text ">>555".data] false) [⟨"abc".data, 3⟩] []
      = some (true, [⟨"abc".data, 3⟩, ⟨">>555".data, 5⟩],
              [⟨3, 5, .Link (.Dead 555)⟩]) := by
  have hres := c8_quote_resolution ⟨fun _ => false⟩ (fun s => s) "span".data
    [("class".data, "deadlink".data)] false ">>555".data "555".data 555
    [⟨"abc".data, 3⟩] [] rfl rfl
  exact hres

/-! Claim C9 -/

mutual

/-- Invariant of C9 at a node: a void element has no children, recursively. -/
def nodeVoidInv : Node → Bool
  | .text _ => true
  | .element e => elemVoidInv e

/-- Invariant of C9 at an element. -/
def elemVoidInv : Element → Bool
  | .mk _ _ children isVoid =>
    (!isVoid || children.isEmpty) && nodesVoidInv children

/-- Invariant of C9 over a node sequence. -/
def nodesVoidInv : List Node → Bool
  | [] => true
  | n :: rest => nodeVoidInv n && nodesVoidInv rest

end

/-- The C9 invariant distributes over list append. -/
theorem nodesVoidInv_append (a b : List Node) :
    nodesVoidInv (a ++ b) = (nodesVoidInv a && nodesVoidInv b) := by
  induction a with
  | nil => simp [nodesVoidInv]
  | cons n rest ih => simp [nodesVoidInv, ih, Bool.and_assoc]

/-- Flushing the text buffer preserves the C9 invariant. -/
theorem flush_voidInv (nodes : List Node) (buf : List Char)
    (h : nodesVoidInv nodes = true) : nodesVoidInv (flush nodes buf) = true := by
  unfold flush
  split
  · simp [nodesVoidInv_append, h, nodesVoidInv, nodeVoidInv]
  · exact h

/-- An element coming out of `create_tag` has no children yet, so it
satisfies the C9 invariant whatever its void flag. -/
theorem create_tag_voidInv (t : List Char) (el : Element)
    (h : create_tag t = .ok el) :
    el.children = [] ∧ elemVoidInv el = true := by
  simp only [create_tag] at h
  split at h
  · exact absurd h (by simp)
  · split at h
    · exact absurd h (by simp)
    · split at h
      · exact absurd h (by simp)
      · obtain rfl := Except.ok.inj h
        exact ⟨rfl, by simp [elemVoidInv, nodesVoidInv]⟩

/-- Every successful run of the parser loop returns a node sequence
satisfying the C9 invariant, provided the accumulator it starts from does. -/
theorem parseGo_voidInv (fuel : Nat) :
    ∀ nodes buf input res rem,
      parseInternalGo fuel nodes buf input = .ok (res, rem) →
      nodesVoidInv nodes = true → nodesVoidInv res = true := by
  induction fuel with
  | zero =>
    intro nodes buf input res rem h
    exact absurd h (by simp [parseInternalGo])
  | succ f ih =>
    intro nodes buf input res rem h hinv
    match input with
    | [] =>
      simp only [parseInternalGo] at h
      obtain ⟨h1, _⟩ := Prod.mk.injEq .. ▸ Except.ok.inj h
      exact h1 ▸ flush_voidInv nodes buf hinv
    | c :: rest =>
      simp only [parseInternalGo] at h
      split at h
      · split at h
        · exact absurd h (by simp)
        · split at h
          · split at h
            · exact absurd h (by simp)
            · obtain ⟨h1, _⟩ := Prod.mk.injEq .. ▸ Except.ok.inj h
              exact h1 ▸ flush_voidInv nodes buf hinv
          · split at h
            · exact absurd h (by simp)
            · rename_i el hcreate
              split at h
              · refine ih _ _ _ _ _ h ?_
                rw [nodesVoidInv_append]
                have hel := (create_tag_voidInv _ _ hcreate).2
                simp [flush_voidInv nodes buf hinv, nodesVoidInv, nodeVoidInv,
                  hel]
              · split at h
                · exact absurd h (by simp)
                · rename_i children rem2 hinner
                  refine ih _ _ _ _ _ h ?_
                  rw [nodesVoidInv_append]
                  have hch := ih _ _ _ _ _ hinner (by rfl)
                  simp [flush_voidInv nodes buf hinv, nodesVoidInv,
                    nodeVoidInv, elemVoidInv, hch]
      · exact ih _ _ _ _ _ h hinv

/-- C9: every element produced by `parse` satisfies the invariant that a
void element has an empty child sequence, and a post of consecutive
top-level void elements parses to exactly that many childless element
nodes. -/
theorem c9_void_invariant :
    (∀ html nodes, parse html = .ok nodes → nodesVoidInv nodes = true) ∧
    parse "<br><wbr><img>".data =
      .ok [Node.element (Element.mk "br".data [] [] true),
           Node.element (Element.mk "wbr".data [] [] true),
           Node.element (Element.mk "img".data [] [] true)] := by
  constructor
  · intro html nodes h
    unfold parse at h
    split at h
    · exact absurd h (by simp)
    · rename_i nodes0 rem heq
      obtain rfl := Except.ok.inj h
      exact parseGo_voidInv _ _ _ _ _ _ heq rfl
  · rfl

/-- Witness for C9: the invariant, via the theorem, at the parse of a single
void element. -/
theorem c9_void_invariant_witness :
    nodesVoidInv [Node.element (Element.mk "br".data [] [] true)] = true :=
  c9_void_invariant.1 "<br>".data
    [Node.element (Element.mk "br".data [] [] true)] rfl

/-! Claims C5 and C6: lemmas about the tag grammar -/

/-- A list avoiding a character does not contain it. -/
theorem contains_eq_false_of_forall {l : List Char} {c : Char}
    (h : ∀ x ∈ l, x ≠ c) : l.contains c = false := by
  simp only [List.contains, List.elem_eq_mem, decide_eq_false_iff_not]
  intro hc
  exact h c hc rfl

/-- A list containing a character contains it. -/
theorem contains_eq_true_of_mem {l : List Char} {c : Char} (h : c ∈ l) :
    l.contains c = true := by
  simp [List.contains, List.elem_eq_mem, h]

/-- A character delivered by `getLast?` is a member of the list. -/
theorem getLast?_mem_list {l : List Char} {a : Char}
    (h : l.getLast? = some a) : a ∈ l := by
  obtain ⟨hne, rfl⟩ := List.mem_getLast?_eq_getLast (by rw [h]; exact rfl)
  exact List.getLast_mem hne

/-- Outside a quoted run, the splitter carries a prefix free of separators
and quotes straight into the current part. -/
theorem splitPartsGo_plain (sep : Char) (a : List Char) :
    ∀ b cur, (∀ c ∈ a, c ≠ sep ∧ c ≠ '"') →
      splitPartsGo sep false cur (a ++ b) =
        splitPartsGo sep false (cur ++ a) b := by
  induction a with
  | nil => intro b cur _; simp
  | cons c a ih =>
    intro b cur h
    have hc := h c (List.mem_cons_self c a)
    simp only [List.cons_append, splitPartsGo]
    rw [if_neg hc.2, if_neg (fun hand => hc.1 hand.1)]
    simp only [List.append_eq]
    rw [ih b (cur ++ [c]) (fun x hx => h x (List.mem_cons_of_mem _ hx))]
    simp

/-- Outside a quoted run, a separator closes the current part. -/
theorem splitPartsGo_sep_head (sep : Char) (hs : sep ≠ '"')
    (cur b : List Char) :
    splitPartsGo sep false cur (sep :: b) =
      cur :: splitPartsGo sep false [] b := by
  simp only [splitPartsGo]
  rw [if_neg hs, if_pos (by simp)]

/-- Inside a quoted run, quote-free text is carried into the current part,
separators included. -/
theorem splitPartsGo_inString (sep : Char) (v : List Char) :
    ∀ b cur, (∀ c ∈ v, c ≠ '"') →
      splitPartsGo sep true cur (v ++ b) =
        splitPartsGo sep true (cur ++ v) b := by
  induction v with
  | nil => intro b cur _; simp
  | cons c vv ih =>
    intro b cur h
    have hc := h c (List.mem_cons_self c vv)
    simp only [List.cons_append, splitPartsGo]
    rw [if_neg hc, if_neg (fun hand => by simpa using hand.2)]
    simp only [List.append_eq]
    rw [ih b (cur ++ [c]) (fun x hx => h x (List.mem_cons_of_mem _ hx))]
    simp

/-- A double quote toggles the splitter into a quoted run and is kept. -/
theorem splitPartsGo_quote_enter (sep : Char) (hs : sep ≠ '"')
    (cur b : List Char) :
    splitPartsGo sep false cur ('"' :: b) =
      splitPartsGo sep true (cur ++ ['"']) b := by
  simp only [splitPartsGo, if_true, Bool.not_false]
  rw [if_neg (fun hand => hs hand.1.symm)]

/-- A double quote toggles the splitter out of a quoted run and is kept. -/
theorem splitPartsGo_quote_exit (sep : Char) (hs : sep ≠ '"')
    (cur b : List Char) :
    splitPartsGo sep true cur ('"' :: b) =
      splitPartsGo sep false (cur ++ ['"']) b := by
  simp only [splitPartsGo, if_true, Bool.not_true]
  rw [if_neg (fun hand => hs hand.1.symm)]

/-- Quote stripping leaves a quote-free value unchanged. -/
theorem stripQuotes_plain (v : List Char) (h : ∀ c ∈ v, c ≠ '"') :
    stripQuotes v = v := by
  simp only [stripQuotes]
  have h1 : ¬ v.head? = some '"' := by
    cases v with
    | nil => simp
    | cons c vv => simpa using h c (List.mem_cons_self c vv)
  rw [if_neg h1]
  have h2 : ¬ v.getLast? = some '"' := fun hl =>
    h _ (getLast?_mem_list hl) rfl
  rw [if_neg h2]

/-- Quote stripping removes exactly one surrounding pair of quotes. -/
theorem stripQuotes_quoted (v : List Char) :
    stripQuotes ('"' :: (v ++ ['"'])) = v := by
  simp only [stripQuotes, List.head?_cons, if_pos, List.drop_succ_cons,
    List.drop_zero, List.getLast?_concat, List.dropLast_concat]

/-- A non-empty part free of separators and quotes survives the splitter as
one part. -/
theorem split_single_plain (sep : Char) (p : List Char) (hne : p ≠ [])
    (hp : ∀ c ∈ p, c ≠ sep ∧ c ≠ '"') :
    splitPartsGo sep false [] p = [p] := by
  have h := splitPartsGo_plain sep p [] [] hp
  simp only [List.append_nil, List.nil_append] at h
  rw [h]
  show (if p.length > 0 then [p] else []) = [p]
  rw [if_pos (List.length_pos.2 hne)]

/-- An attribute part with a fully quoted value survives the space splitter
as one part: the space-separator test is suppressed inside the quotes. -/
theorem split_single_quoted_value (n v : List Char)
    (hn : ∀ c ∈ n, c ≠ ' ' ∧ c ≠ '"') (hv : ∀ c ∈ v, c ≠ ' ' ∧ c ≠ '"') :
    splitPartsGo ' ' false [] (n ++ '=' :: ('"' :: (v ++ ['"']))) =
      [n ++ '=' :: ('"' :: (v ++ ['"']))] := by
  have hplain : ∀ c ∈ n ++ ['='], c ≠ ' ' ∧ c ≠ '"' := by
    intro c hcm
    rcases List.mem_append.1 hcm with h1 | h1
    · exact hn c h1
    · simp only [List.mem_singleton] at h1
      subst h1
      exact ⟨by decide, by decide⟩
  rw [show n ++ '=' :: ('"' :: (v ++ ['"'])) =
    (n ++ ['=']) ++ ('"' :: (v ++ ['"'])) by simp]
  rw [splitPartsGo_plain ' ' (n ++ ['=']) _ [] hplain]
  simp only [List.nil_append]
  rw [splitPartsGo_quote_enter ' ' (by decide) _ _]
  rw [splitPartsGo_inString ' ' v ['"'] _ (fun c hc => (hv c hc).2)]
  rw [splitPartsGo_quote_exit ' ' (by decide) _ []]
  show (if _ > 0 then _ else _) = _
  rw [if_pos (by simp)]
  simp

/-- Space-splitting a tag text of the form `name part` where the name is
plain and the part survives as one piece. -/
theorem split_space_tag (tagName p2 : List Char)
    (hname : ∀ c ∈ tagName, c ≠ ' ' ∧ c ≠ '"')
    (hp2 : splitPartsGo ' ' false [] p2 = [p2]) :
    split_into_parts_by_separator (tagName ++ ' ' :: p2) ' ' =
      [tagName, p2] := by
  unfold split_into_parts_by_separator
  rw [splitPartsGo_plain ' ' tagName _ [] hname]
  simp only [List.nil_append]
  rw [splitPartsGo_sep_head ' ' (by decide) tagName p2, hp2]

/-- Splitting `n=v=w` at `=` yields the pieces `n`, `v` and (when non-empty)
`w`. -/
theorem split_eq_pieces_plain (n v w : List Char)
    (hn : ∀ c ∈ n, c ≠ '=' ∧ c ≠ '"') (hv : ∀ c ∈ v, c ≠ '=' ∧ c ≠ '"')
    (hw : ∀ c ∈ w, c ≠ '=' ∧ c ≠ '"') :
    split_into_parts_by_separator (n ++ '=' :: (v ++ '=' :: w)) '=' =
      n :: v :: (if w.length > 0 then [w] else []) := by
  unfold split_into_parts_by_separator
  rw [splitPartsGo_plain '=' n _ [] hn]
  simp only [List.nil_append]
  rw [splitPartsGo_sep_head '=' (by decide) n _]
  rw [splitPartsGo_plain '=' v _ [] hv]
  simp only [List.nil_append]
  rw [splitPartsGo_sep_head '=' (by decide) v _]
  have h := splitPartsGo_plain '=' w [] [] hw
  simp only [List.append_nil, List.nil_append] at h
  rw [h]
  rfl

/-- Splitting a part with a fully quoted value at `=` yields the name and
the still-quoted value as the two pieces. -/
theorem split_eq_pieces_quoted (n v : List Char)
    (hn : ∀ c ∈ n, c ≠ '=' ∧ c ≠ '"') (hv : ∀ c ∈ v, c ≠ '"') :
    split_into_parts_by_separator (n ++ '=' :: ('"' :: (v ++ ['"']))) '=' =
      [n, '"' :: (v ++ ['"'])] := by
  unfold split_into_parts_by_separator
  rw [splitPartsGo_plain '=' n _ [] hn]
  simp only [List.nil_append]
  rw [splitPartsGo_sep_head '=' (by decide) n _]
  rw [splitPartsGo_quote_enter '=' (by decide) [] _]
  simp only [List.nil_append]
  rw [splitPartsGo_inString '=' v ['"'] _ hv]
  rw [splitPartsGo_quote_exit '=' (by decide) _ []]
  show _ :: (if _ > 0 then _ else _) = _
  rw [if_pos (by simp)]
  simp

/-- Evaluation of `create_tag` on a two-part tag text whose second part is a
single attribute: the name slot takes the first part and the attribute
mapping holds exactly the split-and-stripped pair. -/
theorem create_tag_of_parts (tagName p2 n v0 vfinal : List Char)
    (rest : List (List Char))
    (hsplit : split_into_parts_by_separator (tagName ++ ' ' :: p2) ' ' =
      [tagName, p2])
    (hnoeq : tagName.contains '=' = false)
    (hhaseq : p2.contains '=' = true)
    (hpieces : split_into_parts_by_separator p2 '=' = n :: v0 :: rest)
    (hstrip : stripQuotes v0 = vfinal)
    (hn : n ≠ []) (hvf : vfinal ≠ []) :
    create_tag (tagName ++ ' ' :: p2) =
      .ok (Element.mk tagName [(n, vfinal)] []
        (VOID_ELEMENTS.contains tagName)) := by
  simp only [create_tag, hsplit]
  rw [if_neg (by simp)]
  simp only [createTagGo, hnoeq, hhaseq, hpieces, if_true,
    List.head?_cons, List.tail_cons]
  rw [if_neg (show ¬ (true : Bool) = false by simp)]
  rw [if_neg (by simp [hstrip, hn, hvf])]
  simp [hstrip, lhmInsert]

/-- C5, counterexample: the tag part `a=b=c` does not yield the value `b=c`.
It is split at every unquoted `=` and only pieces 0 and 1 are kept, so the
stored attribute is `a=b` and nothing in the attribute mapping carries
`b=c`. -/
theorem c5_counterexample :
    create_tag "span a=b=c".data =
      .ok (Element.mk "span".data [("a".data, "b".data)] [] false) ∧
    ("a".data, "b=c".data) ∉
      (Element.mk "span".data [("a".data, "b".data)] [] false).attributes :=
  ⟨rfl, by decide⟩

/-- C5, amended: a tag part other than the name slot is split at every
unquoted `=`; the attribute name is the piece before the first `=` and the
stored value is only the piece between the first and the second unquoted `=`
(for `a=b=c` the value is `b` and `c` is discarded); a fully double-quoted
value has the surrounding quotes stripped before storing, and an `=` inside
the quotes does not split because the quote state suppresses the separator.
Stated here for a tag of one plain name part and one attribute part. -/
theorem c5_amended (tagName n v w : List Char)
    (hname : tagName ≠ [] ∧ ∀ c ∈ tagName, c ≠ ' ' ∧ c ≠ '=' ∧ c ≠ '"')
    (hn : n ≠ [] ∧ ∀ c ∈ n, c ≠ ' ' ∧ c ≠ '=' ∧ c ≠ '"')
    (hv : v ≠ [] ∧ ∀ c ∈ v, c ≠ ' ' ∧ c ≠ '=' ∧ c ≠ '"')
    (hw : ∀ c ∈ w, c ≠ ' ' ∧ c ≠ '=' ∧ c ≠ '"') :
    create_tag (tagName ++ ' ' :: (n ++ '=' :: (v ++ '=' :: w))) =
      .ok (Element.mk tagName [(n, v)] []
        (VOID_ELEMENTS.contains tagName)) ∧
    create_tag (tagName ++ ' ' :: (n ++ '=' :: ('"' :: (v ++ ['"'])))) =
      .ok (Element.mk tagName [(n, v)] []
        (VOID_ELEMENTS.contains tagName)) := by
  obtain ⟨hname1, hname2⟩ := hname
  obtain ⟨hn1, hn2⟩ := hn
  obtain ⟨hv1, hv2⟩ := hv
  have hp2mem : ∀ c ∈ n ++ '=' :: (v ++ '=' :: w), c ≠ ' ' ∧ c ≠ '"' := by
    intro c hc
    simp only [List.mem_append, List.mem_cons] at hc
    rcases hc with h1 | h1 | h1 | h1 | h1
    · exact ⟨(hn2 c h1).1, (hn2 c h1).2.2⟩
    · subst h1; exact ⟨by decide, by decide⟩
    · exact ⟨(hv2 c h1).1, (hv2 c h1).2.2⟩
    · subst h1; exact ⟨by decide, by decide⟩
    · exact ⟨(hw c h1).1, (hw c h1).2.2⟩
  constructor
  · refine create_tag_of_parts tagName _ n v v
      (if w.length > 0 then [w] else []) ?_ ?_ ?_ ?_ ?_ hn1 hv1
    · refine split_space_tag tagName _
        (fun c hc => ⟨(hname2 c hc).1, (hname2 c hc).2.2⟩) ?_
      exact split_single_plain ' ' _ (by simp) hp2mem
    · exact contains_eq_false_of_forall (fun c hc => (hname2 c hc).2.1)
    · exact contains_eq_true_of_mem
        (List.mem_append_right _ (List.mem_cons_self _ _))
    · exact split_eq_pieces_plain n v w
        (fun c hc => ⟨(hn2 c hc).2.1, (hn2 c hc).2.2⟩)
        (fun c hc => ⟨(hv2 c hc).2.1, (hv2 c hc).2.2⟩)
        (fun c hc => ⟨(hw c hc).2.1, (hw c hc).2.2⟩)
    · exact stripQuotes_plain v (fun c hc => (hv2 c hc).2.2)
  · refine create_tag_of_parts tagName _ n ('"' :: (v ++ ['"'])) v []
      ?_ ?_ ?_ ?_ ?_ hn1 hv1
    · refine split_space_tag tagName _
        (fun c hc => ⟨(hname2 c hc).1, (hname2 c hc).2.2⟩) ?_
      exact split_single_quoted_value n v
        (fun c hc => ⟨(hn2 c hc).1, (hn2 c hc).2.2⟩)
        (fun c hc => ⟨(hv2 c hc).1, (hv2 c hc).2.2⟩)
    · exact contains_eq_false_of_forall (fun c hc => (hname2 c hc).2.1)
    · exact contains_eq_true_of_mem
        (List.mem_append_right _ (List.mem_cons_self _ _))
    · exact split_eq_pieces_quoted n v
        (fun c hc => ⟨(hn2 c hc).2.1, (hn2 c hc).2.2⟩)
        (fun c hc => (hv2 c hc).2.2)
    · exact stripQuotes_quoted v

/-- Witness for C5: the theorem applied to the concrete tag texts
`span a=b=c` (stored value `b`) and `span a="b"`. -/
theorem c5_amended_witness :
    create_tag ("span".data ++ ' ' ::
        ("a".data ++ '=' :: ("b".data ++ '=' :: "c".data))) =
      .ok (Element.mk "span".data [("a".data, "b".data)] []
        (VOID_ELEMENTS.contains "span".data)) ∧
    create_tag ("span".data ++ ' ' ::
        ("a".data ++ '=' :: ('"' :: ("b".data ++ ['"'])))) =
      .ok (Element.mk "span".data [("a".data, "b".data)] []
        (VOID_ELEMENTS.contains "span".data)) :=
  c5_amended "span".data "a".data "b".data "c".data (by decide) (by decide)
    (by decide) (by decide)

/-- Membership after a `LinkedHashMap` insert: a pair is the inserted one or
was already present. -/
theorem lhmInsert_mem (attrs : List (List Char × List Char))
    (k v : List Char) (p : List Char × List Char)
    (hp : p ∈ lhmInsert attrs k v) : p = (k, v) ∨ p ∈ attrs := by
  induction attrs with
  | nil => simpa [lhmInsert] using hp
  | cons kv rest ih =>
    obtain ⟨k0, v0⟩ := kv
    simp only [lhmInsert] at hp
    split at hp
    · rcases List.mem_cons.1 hp with h1 | h1
      · exact Or.inl h1
      · exact Or.inr (List.mem_cons_of_mem _ h1)
    · rcases List.mem_cons.1 hp with h1 | h1
      · exact Or.inr (h1 ▸ List.mem_cons_self _ _)
      · rcases ih h1 with h2 | h2
        · exact Or.inl h2
        · exact Or.inr (List.mem_cons_of_mem _ h2)

/-- The attribute-collecting loop of `create_tag` only ever inserts pairs
with a non-empty name and a non-empty stripped value. -/
theorem createTagGo_attrs_nonempty (parts : List (List Char)) :
    ∀ nameM attrs, (∀ p ∈ attrs, p.1 ≠ [] ∧ p.2 ≠ []) →
      ∀ nm ats, createTagGo parts nameM attrs = .ok (nm, ats) →
        ∀ p ∈ ats, p.1 ≠ [] ∧ p.2 ≠ [] := by
  induction parts with
  | nil =>
    intro nameM attrs h nm ats heq
    simp only [createTagGo] at heq
    obtain ⟨-, rfl⟩ := Prod.mk.injEq .. ▸ Except.ok.inj heq
    exact h
  | cons p rest ih =>
    intro nameM attrs h nm ats heq
    simp only [createTagGo] at heq
    split at heq
    · exact ih _ _ h _ _ heq
    · split at heq
      · rename_i n v0 hh ht
        split at heq
        · exact ih _ _ h _ _ heq
        · rename_i hcond
          refine ih _ _ ?_ _ _ heq
          intro q hq
          rcases lhmInsert_mem _ _ _ _ hq with h1 | h1
          · subst h1
            constructor
            · intro hne
              exact hcond (Or.inl (by simp [show n = [] from hne]))
            · intro hve
              exact hcond (Or.inr (by simp [show stripQuotes v0 = [] from hve]))
          · exact h q h1
      · exact absurd heq (by simp)

/-- C6: a space inside a double-quoted attribute value does not split the
tag part — `span data-x="a b"` splits into exactly two parts and stores the
single attribute `data-x` with value `a b` — and no attribute with an empty
name or empty stripped value is ever stored, so `empty=""` is dropped
entirely. -/
theorem c6_attribute_quoting :
    (∀ tag_raw el, create_tag tag_raw = .ok el →
      ∀ p ∈ el.attributes, p.1 ≠ [] ∧ p.2 ≠ []) ∧
    split_into_parts_by_separator "span data-x=\"a b\"".data ' ' =
      ["span".data, "data-x=\"a b\"".data] ∧
    create_tag "span data-x=\"a b\"".data =
      .ok (Element.mk "span".data [("data-x".data, "a b".data)] [] false) ∧
    create_tag "span empty=\"\"".data =
      .ok (Element.mk "span".data [] [] false) := by
  refine ⟨?_, by decide, rfl, rfl⟩
  intro tag_raw el h
  simp only [create_tag] at h
  split at h
  · exact absurd h (by simp)
  · split at h
    · exact absurd h (by simp)
    · rename_i res nameM attrs heq
      split at h
      · exact absurd h (by simp)
      · rename_i nm
        obtain rfl := Except.ok.inj h
        intro p hp
        exact createTagGo_attrs_nonempty _ _ _ (by simp) _ _ heq p
          (by simpa [Element.attributes] using hp)

/-- Witness for C6: the general statement of the theorem applied to the
concrete tag text `span a=b` and its stored attribute. -/
theorem c6_attribute_quoting_witness :
    ("a".data ≠ [] ∧ "b".data ≠ []) :=
  c6_attribute_quoting.1 "span a=b".data
    (Element.mk "span".data [("a".data, "b".data)] [] false) rfl
    ("a".data, "b".data) (by decide)
